import Mathlib

/-!
Formal model of the derived-metric computations of the procurement dashboard
(`app.py`).  Numeric columns are modelled as exact rationals; IEEE-754 special
values produced by pandas (NaN, +inf, -inf) are modelled explicitly by the
`FVal` type, since the growth-rate logic of the source uses `float('inf')`
and division by zero deliberately.
-/

namespace CaigouDash

/-- Model of a double-precision cell value: a finite rational, or one of the
IEEE special values produced by pandas arithmetic (`NaN`, `+inf`, `-inf`). -/
inductive FVal where
  | nan
  | inf
  | ninf
  | fin (q : ℚ)
deriving DecidableEq

/-- Division of two finite values with IEEE zero-denominator behaviour:
`0/0 = NaN`, `a/0 = +inf` for `a > 0`, `a/0 = -inf` for `a < 0`. -/
def qdiv (a b : ℚ) : FVal :=
  if b = 0 then (if a = 0 then .nan else if 0 < a then .inf else .ninf)
  else .fin (a / b)

/-- Multiplication by the positive constant 100, as used to turn ratios into
percentages; IEEE special values are preserved. -/
def FVal.mul100 : FVal → FVal
  | .nan => .nan
  | .inf => .inf
  | .ninf => .ninf
  | .fin q => .fin (q * 100)

/-- IEEE `<=` comparison: any comparison with NaN is false. -/
def FVal.le : FVal → FVal → Bool
  | .nan, _ => false
  | _, .nan => false
  | .ninf, _ => true
  | .inf, .inf => true
  | .inf, _ => false
  | .fin _, .inf => true
  | .fin a, .fin b => decide (a ≤ b)
  | .fin _, .ninf => false

/-- IEEE `<` comparison: any comparison with NaN is false. -/
def FVal.lt : FVal → FVal → Bool
  | .nan, _ => false
  | _, .nan => false
  | .inf, _ => false
  | .ninf, .ninf => false
  | .ninf, _ => true
  | .fin _, .inf => true
  | .fin a, .fin b => decide (a < b)
  | .fin _, .ninf => false

/-- Growth amount of a (prior, current) pair: `app.py` line 833,
`增长金额 = 2025年Spend - 2024年Spend`, computed exactly. -/
def growthAmount (p c : ℚ) : ℚ := c - p

/-- Growth rate of a (prior, current) pair: the four-branch lambda of
`app.py` lines 835-843.  The final branch is float division
`增长金额 / 2024年Spend * 100`, reached with a nonzero denominator except
when `p = 0 ∧ c < 0`, where the float semantics of `qdiv` apply. -/
def growthRate (p c : ℚ) : FVal :=
  if p = 0 ∧ c = 0 then .fin 0
  else if p = 0 ∧ 0 < c then .inf
  else if c = 0 then .fin (-100)
  else FVal.mul100 (qdiv (growthAmount p c) p)

/-- Sub-category spend record (`category_data` row): the fields used by the
growth and aggregation computations. -/
structure CategoryRow where
  category : String
  subCategory : String
  spend2024 : ℚ
  spend2025 : ℚ
deriving DecidableEq

/-- Growth rate of a sub-category record, per the derivation rule of the data
model (recomputed in `app.py` lines 833-843 from the two spend columns). -/
def rowGrowthRate (r : CategoryRow) : FVal :=
  growthRate r.spend2024 r.spend2025

/-- Sentinel/threshold filter applied before the growth rankings:
`app.py` lines 552-556, keeping rows whose growth rate is neither
`float('inf')` nor `-100` and whose 2024 spend exceeds 100000. -/
def validGrowthData (rows : List CategoryRow) : List CategoryRow :=
  rows.filter fun r =>
    decide (rowGrowthRate r ≠ FVal.inf) &&
    decide (rowGrowthRate r ≠ FVal.fin (-100)) &&
    decide ((100000 : ℚ) < r.spend2024)

/-- C1: for every sub-category record, the derived growth rate follows the
three-way rule: both years zero gives 0; 2024 zero with 2025 positive gives
the "new" sentinel `+inf`; 2025 zero with 2024 positive gives the
"discontinued" sentinel `-100`; otherwise it is exactly
`growthAmount / spend_2024 * 100` (exactness subsumes the 1e-9 tolerance),
where `growthAmount = spend_2025 - spend_2024` exactly. -/
theorem growthRate_three_way (p c : ℚ) :
    (p = 0 → c = 0 → growthRate p c = .fin 0) ∧
    (p = 0 → 0 < c → growthRate p c = .inf) ∧
    (0 < p → c = 0 → growthRate p c = .fin (-100)) ∧
    (0 < p → 0 < c → growthRate p c = .fin (growthAmount p c / p * 100)) := by
  refine ⟨fun h1 h2 => ?_, fun h1 h2 => ?_, fun h1 h2 => ?_, fun h1 h2 => ?_⟩
  · simp [growthRate, h1, h2]
  · simp [growthRate, h1, h2, h2.ne']
  · simp [growthRate, h2, h1.ne']
  · simp [growthRate, growthAmount, qdiv, FVal.mul100, h1.ne', h2.ne']

/-- Witness for C1: the theorem applied at the concrete pairs (0, 5) and
(200, 300). -/
theorem growthRate_three_way_inst :
    growthRate 0 5 = FVal.inf ∧
    growthRate 200 300 = FVal.fin (growthAmount 200 300 / 200 * 100) :=
  ⟨(growthRate_three_way 0 5).2.1 rfl (by norm_num),
   (growthRate_three_way 200 300).2.2.2 (by norm_num) (by norm_num)⟩

/-- C2: every record surviving the sentinel/threshold filter has a 2024 spend
above the 100000 threshold and a finite growth rate that coincides with
neither sentinel (`+inf` for "new", `-100` for "discontinued"). -/
theorem validGrowthData_postcondition (rows : List CategoryRow)
    (r : CategoryRow) (hr : r ∈ validGrowthData rows) :
    100000 < r.spend2024 ∧
    ∃ q : ℚ, rowGrowthRate r = FVal.fin q ∧ q ≠ -100 := by
  rw [validGrowthData, List.mem_filter] at hr
  obtain ⟨-, hcond⟩ := hr
  simp only [Bool.and_eq_true, decide_eq_true_eq] at hcond
  obtain ⟨⟨hninf, hn100⟩, hthr⟩ := hcond
  have hp : (0 : ℚ) < r.spend2024 := lt_trans (by norm_num) hthr
  refine ⟨hthr, ?_⟩
  rw [rowGrowthRate, growthRate] at hninf hn100 ⊢
  rw [if_neg (by rintro ⟨h0, -⟩; exact hp.ne' h0),
    if_neg (by rintro ⟨h0, -⟩; exact hp.ne' h0)] at hninf hn100 ⊢
  by_cases hc : r.spend2025 = 0
  · rw [if_pos hc] at hn100
    exact absurd rfl hn100
  · rw [if_neg hc] at hn100 ⊢
    rw [growthAmount, qdiv, if_neg hp.ne', FVal.mul100]
    refine ⟨_, rfl, fun hq => ?_⟩
    apply hc
    have h1 : (r.spend2025 - r.spend2024) / r.spend2024 = -1 := by
      have h100 : ((r.spend2025 - r.spend2024) / r.spend2024 * 100) / 100
          = (-100 : ℚ) / 100 := by rw [hq]
      field_simp at h100
      rw [div_eq_iff hp.ne']
      linarith
    rw [div_eq_iff hp.ne'] at h1
    linarith

/-- Witness for C2: the theorem applied to a singleton record list whose row
survives the filter. -/
theorem validGrowthData_postcondition_inst :
    100000 < (CategoryRow.mk "铜材" "铜杆" 200000 300000).spend2024 ∧
    ∃ q : ℚ, rowGrowthRate (CategoryRow.mk "铜材" "铜杆" 200000 300000)
      = FVal.fin q ∧ q ≠ -100 :=
  validGrowthData_postcondition [CategoryRow.mk "铜材" "铜杆" 200000 300000] _
    (by
      rw [validGrowthData, List.mem_filter]
      refine ⟨List.mem_singleton_self _, ?_⟩
      simp only [Bool.and_eq_true, decide_eq_true_eq]
      norm_num [rowGrowthRate, growthRate, growthAmount, qdiv, FVal.mul100]
      decide)

/-- Per-record share of total, as computed inline throughout the source
(`app.py` lines 762-763, 1170, 1728-1732): `amount / amounts.sum * 100`
with float division semantics. -/
def shareOfTotal (amounts : List ℚ) : List FVal :=
  amounts.map fun a => FVal.mul100 (qdiv a amounts.sum)

/-- Error kinds named by the specification (§7). -/
inductive EngineError where
  | divideByZero
  | configuration
deriving DecidableEq

/-- Modelled from the spec: `share_of_total(records, amount_field)` as §4.3
words it — each record's `amount / sum * 100`, failing with a
DivideByZeroCondition when the sum is zero.  This definition exists only to
compare the specified error contract against `shareOfTotal` above, which is
the code model. -/
def shareOfTotalSpec (amounts : List ℚ) : Except EngineError (List ℚ) :=
  if amounts.sum = 0 then .error .divideByZero
  else .ok (amounts.map fun a => a / amounts.sum * 100)

/-- Evaluation of `shareOfTotal` when the total is nonzero: every share is
the finite value `amount / total * 100`. -/
theorem shareOfTotal_of_sum_ne (amounts : List ℚ) (h : amounts.sum ≠ 0) :
    shareOfTotal amounts = amounts.map fun a => FVal.fin (a / amounts.sum * 100) := by
  rw [shareOfTotal]
  refine List.map_congr_left fun a _ => ?_
  rw [qdiv, if_neg h, FVal.mul100]

/-- Counterexample for C3: on the record set `[0]`, whose amounts sum to
zero, the code returns the value list `[NaN]` — it does not fail — while the
spec-modelled operation signals a DivideByZeroCondition. -/
theorem shareOfTotal_zero_sum_returns_values :
    shareOfTotal [0] = [FVal.nan] ∧
    shareOfTotalSpec [0] = .error .divideByZero := by
  constructor
  · norm_num [shareOfTotal, qdiv, FVal.mul100]
  · norm_num [shareOfTotalSpec]

/-- C3 as amended: `shareOfTotal` computes `amount / sum * 100` for each
record when the sum is nonzero; when the sum is zero it does not signal an
error but returns, per record, NaN for a zero amount, `+inf` for a positive
amount and `-inf` for a negative amount. -/
theorem shareOfTotal_eval (amounts : List ℚ) :
    (amounts.sum ≠ 0 →
      shareOfTotal amounts = amounts.map fun a => FVal.fin (a / amounts.sum * 100)) ∧
    (amounts.sum = 0 →
      shareOfTotal amounts = amounts.map fun a =>
        if a = 0 then FVal.nan else if 0 < a then FVal.inf else FVal.ninf) := by
  refine ⟨shareOfTotal_of_sum_ne amounts, fun h => ?_⟩
  rw [shareOfTotal]
  refine List.map_congr_left fun a _ => ?_
  rw [qdiv, if_pos h]
  by_cases h0 : a = 0
  · simp [h0, FVal.mul100]
  · by_cases hpos : 0 < a <;> simp [h0, hpos, FVal.mul100]

/-- Witness for C3 (amended): the nonzero-sum branch applied at the concrete
record set with amounts 100, 200, 300, 400. -/
theorem shareOfTotal_eval_inst :
    shareOfTotal [100, 200, 300, 400] =
      ([100, 200, 300, 400] : List ℚ).map
        (fun a => FVal.fin (a / ([100, 200, 300, 400] : List ℚ).sum * 100)) :=
  (shareOfTotal_eval [100, 200, 300, 400]).1 (by norm_num)

/-- Summation helper: scaling every entry by `(1 / t) * 100` scales the list
sum the same way. -/
theorem sum_map_div_mul (l : List ℚ) (t : ℚ) :
    (l.map fun a => a / t * 100).sum = l.sum / t * 100 := by
  induction l with
  | nil => simp
  | cons x xs ih =>
      rw [List.map_cons, List.sum_cons, List.sum_cons, ih]
      ring

/-- C6: over any record set with positive total, the computed shares are all
finite and sum exactly to 100 (exactness subsumes the 1e-6 tolerance). -/
theorem shareOfTotal_sums_to_100 (amounts : List ℚ) (h : 0 < amounts.sum) :
    ∃ qs : List ℚ, shareOfTotal amounts = qs.map FVal.fin ∧ qs.sum = 100 := by
  refine ⟨amounts.map fun a => a / amounts.sum * 100, ?_, ?_⟩
  · rw [shareOfTotal_of_sum_ne amounts h.ne', List.map_map]
    rfl
  · rw [sum_map_div_mul, div_self h.ne', one_mul]

/-- Witness for C6: the theorem applied at the spec §8 example scenario,
amounts 100, 200, 300, 400 with total 1000. -/
theorem shareOfTotal_sums_to_100_inst :
    ∃ qs : List ℚ, shareOfTotal [100, 200, 300, 400] = qs.map FVal.fin ∧
      qs.sum = 100 :=
  shareOfTotal_sums_to_100 [100, 200, 300, 400] (by norm_num)

/-- Top-N selection by a rational key, the model of pandas
`nlargest(n, col)` with its default `keep = first` policy (`app.py` lines
194, 303, 559, 1332): a stable descending sort followed by taking the first
`n` rows. -/
def top_n {α : Type} (records : List α) (key : α → ℚ) (n : ℕ) : List α :=
  (records.insertionSort fun a b => key b ≤ key a).take n

/-- Bottom-N selection by a rational key, the model of pandas
`nsmallest(n, col)` with its default `keep = first` policy (`app.py` line
583): a stable ascending sort followed by taking the first `n` rows. -/
def bottom_n {α : Type} (records : List α) (key : α → ℚ) (n : ℕ) : List α :=
  (records.insertionSort fun a b => key a ≤ key b).take n

/-- Stability helper: ordered insertion of `a` commutes with filtering the
rows whose key equals `v`, provided the insertion relation never jumps over
an equal key. -/
theorem filter_orderedInsert_keyEq {α : Type} (r : α → α → Prop)
    [DecidableRel r] (key : α → ℚ) (v : ℚ)
    (hr : ∀ x y, ¬r x y → key x ≠ key y) (a : α) (l : List α) :
    (List.orderedInsert r a l).filter (fun b => decide (key b = v)) =
      if key a = v then a :: l.filter (fun b => decide (key b = v))
      else l.filter (fun b => decide (key b = v)) := by
  induction l with
  | nil =>
      by_cases h : key a = v <;> simp [List.orderedInsert, List.filter, h]
  | cons b l ih =>
      rw [List.orderedInsert]
      by_cases hab : r a b
      · rw [if_pos hab, List.filter_cons]
        by_cases ha : key a = v <;> simp [ha]
      · rw [if_neg hab]
        by_cases hb : key b = v <;> by_cases ha : key a = v
        · exact absurd (ha.trans hb.symm) (hr a b hab)
        · simp [List.filter_cons, ih, hb, ha]
        · simp [List.filter_cons, ih, hb, ha]
        · simp [List.filter_cons, ih, hb, ha]

/-- Stability helper: a stable insertion sort preserves, as a sublist, the
original relative order of all rows sharing one key value. -/
theorem filter_insertionSort_keyEq {α : Type} (r : α → α → Prop)
    [DecidableRel r] (key : α → ℚ) (v : ℚ)
    (hr : ∀ x y, ¬r x y → key x ≠ key y) (l : List α) :
    (l.insertionSort r).filter (fun b => decide (key b = v)) =
      l.filter (fun b => decide (key b = v)) := by
  induction l with
  | nil => rfl
  | cons a l ih =>
      rw [List.insertionSort, filter_orderedInsert_keyEq r key v hr, ih,
        List.filter_cons]
      by_cases h : key a = v <;> simp [h]

/-- Prefix helper: filtering a take-prefix yields a take-prefix of the
filtered list. -/
theorem filter_take_eq_take_filter {α : Type} (l : List α) (p : α → Bool)
    (n : ℕ) : ∃ k, (l.take n).filter p = (l.filter p).take k := by
  refine ⟨((l.take n).filter p).length, ?_⟩
  have hsplit : l.filter p = (l.take n).filter p ++ (l.drop n).filter p := by
    rw [← List.filter_append, List.take_append_drop]
  rw [hsplit]
  exact (List.take_left' rfl).symm

/-- C5: `top_n` and `bottom_n` return subsets of the input, of size
`min n |records|`, sorted descending (resp. ascending) by the key; both are
deterministic functions of the input order and break ties among equal keys
by original input order (the selected rows with any fixed key value form a
take-prefix of the input rows carrying that key value, in input order). -/
theorem top_n_bottom_n_props {α : Type} (records : List α) (key : α → ℚ)
    (n : ℕ) :
    (∀ r ∈ top_n records key n, r ∈ records) ∧
    (∀ r ∈ bottom_n records key n, r ∈ records) ∧
    (top_n records key n).length = min n records.length ∧
    (bottom_n records key n).length = min n records.length ∧
    (top_n records key n).Pairwise (fun a b => key b ≤ key a) ∧
    (bottom_n records key n).Pairwise (fun a b => key a ≤ key b) ∧
    (∀ v : ℚ, ∃ k, (top_n records key n).filter (fun r => decide (key r = v)) =
      (records.filter (fun r => decide (key r = v))).take k) ∧
    (∀ v : ℚ, ∃ k, (bottom_n records key n).filter (fun r => decide (key r = v)) =
      (records.filter (fun r => decide (key r = v))).take k) := by
  haveI ht1 : IsTotal α (fun a b => key b ≤ key a) :=
    ⟨fun a b => le_total (key b) (key a)⟩
  haveI ht2 : IsTrans α (fun a b => key b ≤ key a) :=
    ⟨fun _ _ _ h1 h2 => le_trans h2 h1⟩
  haveI ht3 : IsTotal α (fun a b => key a ≤ key b) :=
    ⟨fun a b => le_total (key a) (key b)⟩
  haveI ht4 : IsTrans α (fun a b => key a ≤ key b) :=
    ⟨fun _ _ _ h1 h2 => le_trans h1 h2⟩
  refine ⟨?_, ?_, ?_, ?_, ?_, ?_, ?_, ?_⟩
  · intro r hr
    exact ((List.perm_insertionSort _ records).mem_iff).1
      ((List.take_sublist _ _).subset hr)
  · intro r hr
    exact ((List.perm_insertionSort _ records).mem_iff).1
      ((List.take_sublist _ _).subset hr)
  · rw [top_n, List.length_take, List.length_insertionSort]
  · rw [bottom_n, List.length_take, List.length_insertionSort]
  · exact (List.sorted_insertionSort _ records).sublist (List.take_sublist _ _)
  · exact (List.sorted_insertionSort _ records).sublist (List.take_sublist _ _)
  · intro v
    obtain ⟨k, hk⟩ := filter_take_eq_take_filter
      (records.insertionSort fun a b => key b ≤ key a)
      (fun r => decide (key r = v)) n
    refine ⟨k, ?_⟩
    rw [top_n, hk, filter_insertionSort_keyEq _ key v
      (fun x y hxy => fun he => hxy (he ▸ le_rfl))]
  · intro v
    obtain ⟨k, hk⟩ := filter_take_eq_take_filter
      (records.insertionSort fun a b => key a ≤ key b)
      (fun r => decide (key r = v)) n
    refine ⟨k, ?_⟩
    rw [bottom_n, hk, filter_insertionSort_keyEq _ key v
      (fun x y hxy => fun he => hxy (he ▸ le_rfl))]

/-- Witness for C5: the theorem applied at the concrete record list
`[3, 1, 2]` with the identity key and `n = 2`. -/
theorem top_n_bottom_n_props_inst :
    (3 : ℚ) ∈ ([3, 1, 2] : List ℚ) ∧ (1 : ℚ) ∈ ([3, 1, 2] : List ℚ) ∧
    (top_n ([3, 1, 2] : List ℚ) id 2).length = min 2 3 :=
  ⟨(top_n_bottom_n_props [3, 1, 2] id 2).1 3 (by decide),
   (top_n_bottom_n_props [3, 1, 2] id 2).2.1 1 (by decide),
   (top_n_bottom_n_props [3, 1, 2] id 2).2.2.1⟩

/-- Top-K concentration ratio over a list of amounts: `app.py` lines 150-153
and 1332-1333, `nlargest(k, col).sum / total * 100` with float division. -/
def concentrationRatio (amounts : List ℚ) (k : ℕ) : FVal :=
  FVal.mul100 (qdiv (top_n amounts id k).sum amounts.sum)

/-- Counterexample for C7: on the all-zero record set `[0, 0]` (non-negative
amounts, `k = 1 < 2` rows) both concentration ratios are NaN, and the IEEE
comparison `NaN <= NaN` is false, so the claimed monotonicity fails without a
positive-total hypothesis. -/
theorem concentrationRatio_nan_not_monotone :
    1 < ([0, 0] : List ℚ).length ∧
    FVal.le (concentrationRatio [0, 0] 1) (concentrationRatio [0, 0] 2) = false := by
  constructor
  · decide
  · have h1 : concentrationRatio [0, 0] 1 = FVal.nan := by
      norm_num [concentrationRatio, top_n, qdiv, List.insertionSort,
        List.orderedInsert, FVal.mul100]
    have h2 : concentrationRatio [0, 0] 2 = FVal.nan := by
      norm_num [concentrationRatio, top_n, qdiv, List.insertionSort,
        List.orderedInsert, FVal.mul100]
    rw [h1, h2]
    rfl

/-- Take-one-more helper: with non-negative amounts, the sum of the first
`k + 1` rows of the descending sort is at least the sum of the first `k`. -/
theorem sum_take_succ_ge (l : List ℚ) (k : ℕ) (hk : k < l.length)
    (hpos : ∀ a ∈ l, 0 ≤ a) :
    ((l.insertionSort fun a b => b ≤ a).take k).sum ≤
      ((l.insertionSort fun a b => b ≤ a).take (k + 1)).sum := by
  set s := l.insertionSort fun a b => b ≤ a with hs
  have hlen : k < s.length := by
    rw [hs, List.length_insertionSort]; exact hk
  have hget : s[k]? = some s[k] := List.getElem?_eq_getElem hlen
  rw [List.take_succ, hget, List.sum_append]
  have hmem : s[k] ∈ l := by
    exact ((List.perm_insertionSort _ l).mem_iff).1 (s.getElem_mem hlen)
  have := hpos _ hmem
  simp only [Option.toList_some, List.sum_cons, List.sum_nil]
  linarith

/-- C7 as amended: for every record set with non-negative amounts and a
positive total, the top-K concentration ratio is monotonically
non-decreasing in K for `K < |records|` (with a zero total both ratios are
NaN and the comparison fails, per the counterexample). -/
theorem concentrationRatio_monotone (amounts : List ℚ) (k : ℕ)
    (hpos : ∀ a ∈ amounts, 0 ≤ a) (hsum : 0 < amounts.sum)
    (hk : k < amounts.length) :
    FVal.le (concentrationRatio amounts k) (concentrationRatio amounts (k + 1))
      = true := by
  have hmono := sum_take_succ_ge amounts k hk hpos
  rw [concentrationRatio, concentrationRatio, top_n, top_n, qdiv, qdiv,
    if_neg hsum.ne', if_neg hsum.ne', FVal.mul100, FVal.mul100, FVal.le,
    decide_eq_true_eq]
  simp only [id_eq]
  have hti : (0 : ℚ) ≤ (amounts.sum)⁻¹ := (inv_pos.2 hsum).le
  have h3 := mul_le_mul_of_nonneg_right hmono hti
  rw [div_eq_mul_inv, div_eq_mul_inv]
  nlinarith [h3]

/-- Witness for C7 (amended): the theorem applied at the spec §8 example
scenario, amounts 100, 200, 300, 400 with `k = 1`. -/
theorem concentrationRatio_monotone_inst :
    FVal.le (concentrationRatio [100, 200, 300, 400] 1)
      (concentrationRatio [100, 200, 300, 400] 2) = true :=
  concentrationRatio_monotone [100, 200, 300, 400] 1 (by decide)
    (by norm_num) (by decide)

/-- High-dependency count over a list of amounts: `app.py` lines 154-156 and
1277-1280, the number of rows whose `amount / total` strictly exceeds the
threshold, compared with float semantics. -/
def highDependencyCount (amounts : List ℚ) (thr : ℚ) : ℕ :=
  (amounts.filter fun a => FVal.lt (.fin thr) (qdiv a amounts.sum)).length

/-- Counting helper: a list whose entries all strictly exceed `c` has sum
strictly above `length * c`, provided it is non-empty. -/
theorem length_mul_lt_sum (l : List ℚ) (c : ℚ) (hall : ∀ a ∈ l, c < a)
    (hne : l ≠ []) : (l.length : ℚ) * c < l.sum := by
  induction l with
  | nil => exact absurd rfl hne
  | cons x xs ih =>
      rcases xs with - | ⟨y, ys⟩
      · have := hall x (List.mem_singleton_self x)
        simpa using this
      · have hx := hall x (List.mem_cons_self _ _)
        have hxs := ih (fun a ha => hall a (List.mem_cons_of_mem _ ha))
          (List.cons_ne_nil _ _)
        rw [List.length_cons, List.sum_cons]
        push_cast
        push_cast at hxs
        linarith

/-- C10: with non-negative amounts and a positive total, at most 9 records
can each hold a share strictly above the 0.1 threshold. -/
theorem highDependencyCount_le_nine (amounts : List ℚ)
    (hpos : ∀ a ∈ amounts, 0 ≤ a) (hsum : 0 < amounts.sum) :
    highDependencyCount amounts (1 / 10) ≤ 9 := by
  rw [highDependencyCount]
  set t := amounts.sum with ht
  set S := amounts.filter fun a => FVal.lt (.fin (1 / 10)) (qdiv a t) with hS
  by_contra hlen
  push_neg at hlen
  have h10 : 10 ≤ S.length := hlen
  have hall : ∀ a ∈ S, t / 10 < a := by
    intro a ha
    rw [hS, List.mem_filter] at ha
    obtain ⟨-, hcond⟩ := ha
    rw [qdiv, if_neg hsum.ne', FVal.lt, decide_eq_true_eq, lt_div_iff₀ hsum]
      at hcond
    linarith
  have hne : S ≠ [] := by
    intro h
    rw [h] at h10
    simp at h10
  have hlt := length_mul_lt_sum S (t / 10) hall hne
  have hsub : S.sum ≤ amounts.sum :=
    (List.filter_sublist amounts).sum_le_sum hpos
  have hgeten : (10 : ℚ) ≤ (S.length : ℚ) := by exact_mod_cast h10
  nlinarith

/-- Witness for C10: the theorem applied at the concrete amounts
100, 200, 300, 400 (total 1000). -/
theorem highDependencyCount_le_nine_inst :
    highDependencyCount [100, 200, 300, 400] (1 / 10) ≤ 9 :=
  highDependencyCount_le_nine [100, 200, 300, 400] (by decide) (by norm_num)

/-- Round-half-to-even on a rational, the model of `numpy` rounding used by
pandas `Series.round`. -/
def roundHalfEven (x : ℚ) : ℤ :=
  if x - ⌊x⌋ < 1 / 2 then ⌊x⌋
  else if 1 / 2 < x - ⌊x⌋ then ⌊x⌋ + 1
  else if ⌊x⌋ % 2 = 0 then ⌊x⌋ else ⌊x⌋ + 1

/-- Rounding to one decimal place, the model of `.round(1)` in
`app.py` lines 525 and 1682. -/
def roundTo1 (x : ℚ) : ℚ := (roundHalfEven (x * 10) : ℚ) / 10

/-- Rounding to one decimal lifted to float values; IEEE special values are
preserved by `numpy` rounding. -/
def FVal.round1 : FVal → FVal
  | .nan => .nan
  | .inf => .inf
  | .ninf => .ninf
  | .fin q => .fin (roundTo1 q)

/-- Rows of one category, the model of `groupby('Category')` restricted to
one group key (`app.py` lines 519-525 and 1677-1682). -/
def catRows (rows : List CategoryRow) (c : String) : List CategoryRow :=
  rows.filter fun r => decide (r.category = c)

/-- Per-category 2024 spend total (`'2024年Spend': 'sum'`). -/
def catSum2024 (rows : List CategoryRow) (c : String) : ℚ :=
  ((catRows rows c).map (fun r => r.spend2024)).sum

/-- Per-category 2025 spend total (`'2025年Spend': 'sum'`). -/
def catSum2025 (rows : List CategoryRow) (c : String) : ℚ :=
  ((catRows rows c).map (fun r => r.spend2025)).sum

/-- Per-category summed growth amount (`'增长金额': 'sum'`, with the
per-row growth amount derived as `spend_2025 - spend_2024`). -/
def catSumGrowthAmount (rows : List CategoryRow) (c : String) : ℚ :=
  ((catRows rows c).map (fun r => growthAmount r.spend2024 r.spend2025)).sum

/-- Category-level growth rate: `app.py` lines 525 / 1682,
`(增长金额合计 / 2024年Spend合计 * 100).round(1)`. -/
def categoryGrowthRate (rows : List CategoryRow) (c : String) : FVal :=
  FVal.round1 (FVal.mul100 (qdiv (catSumGrowthAmount rows c) (catSum2024 rows c)))

/-- Counterexample for C8: for a category with sub-rows
(100 → 150) and (200 → 250), summed spends 300 → 400, the code stores the
growth rate 33.3 (rounded to one decimal), which is not equal to the
recomputed value `(400 - 300) / 300 * 100 = 100/3`. -/
theorem categoryGrowthRate_rounds :
    categoryGrowthRate
      [CategoryRow.mk "A" "s1" 100 150, CategoryRow.mk "A" "s2" 200 250] "A"
      = FVal.fin (333 / 10) ∧
    (333 / 10 : ℚ) ≠ ((400 : ℚ) - 300) / 300 * 100 := by
  constructor
  · have h1 : catSumGrowthAmount
        [CategoryRow.mk "A" "s1" 100 150, CategoryRow.mk "A" "s2" 200 250] "A"
        = 100 := by
      norm_num [catSumGrowthAmount, catRows, growthAmount, List.filter]
    have h2 : catSum2024
        [CategoryRow.mk "A" "s1" 100 150, CategoryRow.mk "A" "s2" 200 250] "A"
        = 300 := by
      norm_num [catSum2024, catRows, List.filter]
    rw [categoryGrowthRate, h1, h2, qdiv]
    norm_num [FVal.mul100, FVal.round1, roundTo1, roundHalfEven]
  · norm_num

/-- Summation helper: the sum of entrywise differences is the difference of
the sums. -/
theorem sum_map_sub {α : Type} (l : List α) (f g : α → ℚ) :
    (l.map fun x => f x - g x).sum = (l.map f).sum - (l.map g).sum := by
  induction l with
  | nil => simp
  | cons x xs ih =>
      rw [List.map_cons, List.map_cons, List.map_cons, List.sum_cons,
        List.sum_cons, List.sum_cons, ih]
      ring

/-- C8 as amended: for every category with positive summed 2024 spend, the
stored category growth rate equals the growth recomputed from the summed
spends, `(Σ spend_2025 - Σ spend_2024) / Σ spend_2024 * 100`, rounded to one
decimal place — in particular it is recomputed from sums, not averaged from
sub-category rates. -/
theorem categoryGrowthRate_recomputed (rows : List CategoryRow) (c : String)
    (h : 0 < catSum2024 rows c) :
    categoryGrowthRate rows c =
      FVal.fin (roundTo1
        ((catSum2025 rows c - catSum2024 rows c) / catSum2024 rows c * 100)) := by
  have hg : catSumGrowthAmount rows c = catSum2025 rows c - catSum2024 rows c := by
    rw [catSumGrowthAmount, catSum2025, catSum2024]
    exact sum_map_sub (catRows rows c) (fun r => r.spend2025) (fun r => r.spend2024)
  rw [categoryGrowthRate, hg, qdiv, if_neg h.ne', FVal.mul100, FVal.round1]

/-- Witness for C8 (amended): the theorem applied at a concrete two-row
category with positive 2024 total. -/
theorem categoryGrowthRate_recomputed_inst :
    categoryGrowthRate
      [CategoryRow.mk "B" "t1" 100 90, CategoryRow.mk "B" "t2" 100 130] "B" =
      FVal.fin (roundTo1
        ((catSum2025 [CategoryRow.mk "B" "t1" 100 90,
            CategoryRow.mk "B" "t2" 100 130] "B" -
          catSum2024 [CategoryRow.mk "B" "t1" 100 90,
            CategoryRow.mk "B" "t2" 100 130] "B") /
          catSum2024 [CategoryRow.mk "B" "t1" 100 90,
            CategoryRow.mk "B" "t2" 100 130] "B" * 100)) :=
  categoryGrowthRate_recomputed
    [CategoryRow.mk "B" "t1" 100 90, CategoryRow.mk "B" "t2" 100 130] "B"
    (by norm_num [catSum2024, catRows, List.filter])

/-- Ascending sort of the amounts, as used inside the pandas quantile
computation. -/
def sortedAsc (l : List ℚ) : List ℚ := l.insertionSort (· ≤ ·)

/-- Linear-interpolation quantile of a list of amounts at fraction `q`, the
model of the default `numpy`/pandas percentile algorithm: position
`h = q * (n - 1)` on the sorted values, interpolating between the entries at
`⌊h⌋` and `⌊h⌋ + 1`. -/
def quantileLin (l : List ℚ) (q : ℚ) : ℚ :=
  if (⌊q * (((sortedAsc l).length : ℚ) - 1)⌋.toNat + 1) < (sortedAsc l).length then
    (sortedAsc l).getD (⌊q * (((sortedAsc l).length : ℚ) - 1)⌋.toNat) 0 +
      (q * (((sortedAsc l).length : ℚ) - 1) -
        (⌊q * (((sortedAsc l).length : ℚ) - 1)⌋.toNat : ℚ)) *
        ((sortedAsc l).getD (⌊q * (((sortedAsc l).length : ℚ) - 1)⌋.toNat + 1) 0 -
          (sortedAsc l).getD (⌊q * (((sortedAsc l).length : ℚ) - 1)⌋.toNat) 0)
  else (sortedAsc l).getD ((sortedAsc l).length - 1) 0

/-- Five quartile bin edges (0th/25th/50th/75th/100th percentiles) computed
by `pd.qcut(..., q=4)`. -/
def qcutEdges (l : List ℚ) : List ℚ :=
  [quantileLin l 0, quantileLin l (1 / 4), quantileLin l (1 / 2),
    quantileLin l (3 / 4), quantileLin l 1]

/-- Duplicate check on the bin edges: `pd.qcut` with the default
`duplicates = raise` policy raises when the edges are not pairwise
distinct. -/
def allDistinct : List ℚ → Bool
  | [] => true
  | a :: rest => !(rest.contains a) && allDistinct rest

/-- Tier label assignment for one amount against the five edges: bins are
right-closed with the lowest edge included in the first bin, and the labels
are ordered `['D级', 'C级', 'B级', 'A级']` from lowest to highest bucket
(`app.py` line 1171). -/
def binLabel4 (e : List ℚ) (x : ℚ) : String :=
  if x ≤ e.getD 1 0 then "D级"
  else if x ≤ e.getD 2 0 then "C级"
  else if x ≤ e.getD 3 0 then "B级"
  else "A级"

/-- Quartile tiering of a list of amounts: the model of
`pd.qcut(amounts, q=4, labels=['D级', 'C级', 'B级', 'A级'])` at
`app.py` line 1171, which raises when the computed quartile edges contain
duplicates and otherwise labels every row. -/
def qcut4 (amounts : List ℚ) : Except EngineError (List String) :=
  if allDistinct (qcutEdges amounts) then
    .ok (amounts.map (binLabel4 (qcutEdges amounts)))
  else .error .configuration

/-- Lookup helper: every in-range position of a constant list holds the
constant. -/
theorem getD_replicate (n i : ℕ) (a : ℚ) (h : i < n) :
    (List.replicate n a).getD i 0 = a := by
  rw [List.getD_eq_getElem?_getD, List.getElem?_replicate, if_pos h]
  rfl

/-- Quantile helper: every quantile of a constant non-empty list is the
constant. -/
theorem quantileLin_replicate (n : ℕ) (hn : 0 < n) (a q : ℚ) :
    quantileLin (List.replicate n a) q = a := by
  have hs : sortedAsc (List.replicate n a) = List.replicate n a :=
    List.Sorted.insertionSort_eq ((List.pairwise_replicate).2 (Or.inr le_rfl))
  rw [quantileLin, hs, List.length_replicate]
  by_cases hi : (⌊q * ((n : ℚ) - 1)⌋.toNat + 1) < n
  · rw [if_pos hi, getD_replicate n _ a (Nat.lt_of_succ_lt hi),
      getD_replicate n _ a hi]
    ring
  · rw [if_neg hi, getD_replicate n _ a (Nat.sub_lt hn Nat.one_pos)]

/-- C4 as amended: quartile tiering aborts with a ConfigurationError when
the computed quartile edges contain duplicates — in particular whenever all
amount values are equal — returning no labels at all in that case; when it
succeeds, every record receives a tier label.  (Fewer than 4 distinct values
does not by itself cause the failure; see the counterexample.) -/
theorem qcut4_degenerate_behaviour :
    (∀ (a : ℚ) (n : ℕ), 0 < n →
      qcut4 (List.replicate n a) = .error .configuration) ∧
    (∀ (amounts : List ℚ) (ls : List String), qcut4 amounts = .ok ls →
      ls.length = amounts.length) := by
  constructor
  · intro a n hn
    rw [qcut4, qcutEdges, quantileLin_replicate n hn, quantileLin_replicate n hn,
      quantileLin_replicate n hn, quantileLin_replicate n hn,
      quantileLin_replicate n hn]
    simp [allDistinct]
  · intro amounts ls h
    rw [qcut4] at h
    split at h
    · injection h with h1
      rw [← h1, List.length_map]
    · exact Except.noConfusion h

/-- Witness for C4 (amended): the degenerate branch applied at the constant
two-element amount list `[5, 5]`. -/
theorem qcut4_degenerate_behaviour_inst :
    qcut4 (List.replicate 2 (5 : ℚ)) = .error .configuration :=
  qcut4_degenerate_behaviour.1 5 2 (by decide)

/-- Counterexample for C4: the amounts `[1, 2, 3]` have only 3 < 4 distinct
values, yet `pd.qcut` succeeds (the interpolated quartile edges
`[1, 3/2, 2, 5/2, 3]` are distinct) and labels every record instead of
failing. -/
theorem qcut4_three_distinct_ok :
    ([1, 2, 3] : List ℚ).dedup.length < 4 ∧
    qcut4 [1, 2, 3] = .ok ["D级", "C级", "A级"] := by
  constructor
  · decide
  · have hs : sortedAsc [1, 2, 3] = [1, 2, 3] := by decide
    have e0 : quantileLin [1, 2, 3] 0 = 1 := by
      rw [quantileLin, hs]
      norm_num
    have e14 : quantileLin [1, 2, 3] (1 / 4) = 3 / 2 := by
      rw [quantileLin, hs]
      norm_num [List.getD]
    have e12 : quantileLin [1, 2, 3] (1 / 2) = 2 := by
      rw [quantileLin, hs]
      norm_num [List.getD]
    have e34 : quantileLin [1, 2, 3] (3 / 4) = 5 / 2 := by
      rw [quantileLin, hs]
      norm_num [List.getD]
    have e1 : quantileLin [1, 2, 3] 1 = 3 := by
      rw [quantileLin, hs]
      norm_num [List.getD, show Int.toNat 2 = 2 from rfl]
    rw [qcut4, qcutEdges, e0, e14, e12, e34, e1]
    rw [if_pos (by norm_num [allDistinct, List.contains])]
    norm_num [binLabel4, List.getD]

/-- Raw column cell as delivered to the engine: a number, a missing-value
marker (float NaN), or a text cell together with its numeric parse (`none`
when `pd.to_numeric(..., errors='coerce')` cannot parse it). -/
inductive RawCell where
  | num (q : ℚ)
  | na
  | txt (numericParse : Option ℚ)
deriving DecidableEq

/-- Supplier row restricted to the fields touched by the growth-column
preparation step of `app.py` lines 190-192. -/
structure SupplierRawRow where
  supplier : String
  growthCell : RawCell
deriving DecidableEq

/-- Column dtype check of `pd.api.types.is_numeric_dtype`: the column is
numeric when no cell is text. -/
def cellIsNumeric : RawCell → Bool
  | .txt _ => false
  | _ => true

/-- Dtype of the growth-amount column over the caller's rows. -/
def isNumericDtype (rows : List SupplierRawRow) : Bool :=
  rows.all fun r => cellIsNumeric r.growthCell

/-- Cell coercion of `pd.to_numeric(..., errors='coerce')`: numbers are
kept, missing stays missing, text becomes its numeric parse or the
missing-value marker. -/
def toNumericCoerce : RawCell → RawCell
  | .num q => .num q
  | .na => .na
  | .txt (some q) => .num q
  | .txt none => .na

/-- Growth-column preparation of `app.py` lines 190-192 (and its twin at
lines 299-301): when the column is not numeric the code assigns the coerced
column back onto the caller's dataframe and runs
`dropna(subset=['增长金额'], inplace=True)`, so the caller-visible row list
after the call is the returned value of this function. -/
def prepareGrowthColumn (rows : List SupplierRawRow) : List SupplierRawRow :=
  if isNumericDtype rows then rows
  else
    (rows.map fun r => SupplierRawRow.mk r.supplier (toNumericCoerce r.growthCell)).filter
      fun r => decide (r.growthCell ≠ RawCell.na)

/-- C9 evaluated at the failing input: a caller-supplied supplier list with
one row whose growth-amount cell is a non-numeric string is coerced in place
and the row is dropped from the caller's data — the caller-visible list
becomes empty, contradicting the no-mutation contract. -/
theorem prepareGrowthColumn_mutates :
    prepareGrowthColumn [SupplierRawRow.mk "供应商A" (RawCell.txt none)] = [] ∧
    prepareGrowthColumn [SupplierRawRow.mk "供应商A" (RawCell.txt none)] ≠
      [SupplierRawRow.mk "供应商A" (RawCell.txt none)] := by
  constructor
  · decide
  · decide

end CaigouDash
